import Mathlib

/-!
Verification of the abydos string-distance library slice against its
specification. The Sift4Extended scanner (abydos/distance/_sift4_extended.py)
is embedded directly from the source as a fuel-indexed state machine over
explicit cursor/offset-history state. The thin formula layer (Doolittle,
Dennis, Pearson III, Tulloss S) is embedded over exact rationals, with real
numbers standing in for Python floats where square roots and logarithms
occur; a zero denominator in a Python division is modelled by Except.error,
since Python raises ZeroDivisionError there. The Token-Set Contingency
Engine itself (_token_distance.py) and PearsonPhi are not part of the
provided sources, so the few facts needed about them are modelled from the
specification and marked as such.
-/

set_option maxHeartbeats 1000000

namespace Abydos

/-- An entry of the offset history (offset_arr) kept by Sift4Extended.dist_abs:
the source and target cursor of an earlier matched pair, plus the per-entry
already-counted transposition flag (line 137 of _sift4_extended.py). -/
structure OffsetEntry where
  src_cur : Nat
  tar_cur : Nat
  trans : Bool
deriving DecidableEq

/-- Character of a string at an index. Every call site in the embedded code is
guarded by an explicit bounds check, exactly as in the Python source, so the
default value is never observable. -/
def charAt (s : List Char) (i : Nat) : Char := s.getD i '?'

/-- Lines 119-134 of _sift4_extended.py: the inner while loop over offset_arr
run at a matched pair (sc, tc). Returns the final value of is_trans, the total
number of increments applied to the trans counter, and the updated offset_arr
(the source deletes entries in place; here the kept entries are rebuilt in
order). -/
def scanOffsetArr (sc tc : Nat) : List OffsetEntry → Bool × Nat × List OffsetEntry
  | [] => (false, 0, [])
  | ofs :: rest =>
    if sc ≤ ofs.src_cur ∨ tc ≤ ofs.tar_cur then
      if ((ofs.tar_cur : Int) - ofs.src_cur).natAbs ≤ ((tc : Int) - sc).natAbs then
        (true, 1, ofs :: rest)
      else if !ofs.trans then (false, 1, { ofs with trans := true } :: rest)
      else (false, 0, ofs :: rest)
    else if ofs.tar_cur < sc ∧ ofs.src_cur < tc then
      scanOffsetArr sc tc rest
    else
      let r := scanOffsetArr sc tc rest
      (r.1, r.2.1, ofs :: r.2.2)

/-- Outcome of the bounded look-ahead scan of lines 144-160: no
resynchronization found, or a hit on the source side (line 149) or the target
side (line 155) at loop index i. -/
inductive LookAheadResult where
  | noHit
  | srcHit (i : Nat)
  | tarHit (i : Nat)
deriving DecidableEq

/-- Lines 144-160 of _sift4_extended.py: the look-ahead for loop, started at
loop index k with rem iterations of budget remaining, both cursors standing at
m after the realignment of line 143. -/
def lookAheadFrom (src tar : List Char) (m : Nat) : Nat → Nat → LookAheadResult
  | _, 0 => .noHit
  | k, rem + 1 =>
    if ¬(m + k < src.length ∨ m + k < tar.length) then .noHit
    else if m + k < src.length ∧ charAt src (m + k) = charAt tar m then .srcHit k
    else if m + k < tar.length ∧ charAt src m = charAt tar (m + k) then .tarHit k
    else lookAheadFrom src tar m (k + 1) rem

/-- The look-ahead loop for i in range(max_offset), from index 0. -/
def lookAhead (src tar : List Char) (m maxOffset : Nat) : LookAheadResult :=
  lookAheadFrom src tar m 0 maxOffset

/-- The mutable locals of Sift4Extended.dist_abs (lines 107-112). -/
structure S4State where
  src_cur : Nat
  tar_cur : Nat
  lcss : Nat
  local_cs : Nat
  trans : Nat
  offset_arr : List OffsetEntry
deriving DecidableEq

/-- One body of the while loop (lines 115-163), producing the state right
after the src_cur += 1; tar_cur += 1 increments of lines 162-163. The cursor
updates of the mismatch branch are the source's updates combined with those
increments: a source-side hit at i performs src_cur += i - 1; tar_cur -= 1 and
then both increments, i.e. net cursors (m + i, m), and symmetrically for a
target-side hit; no intermediate value is observed between the two in the
source. -/
def sift4Step (src tar : List Char) (maxOffset : Nat) (st : S4State) : S4State :=
  if charAt src st.src_cur = charAt tar st.tar_cur then
    let r := scanOffsetArr st.src_cur st.tar_cur st.offset_arr
    { st with
      local_cs := st.local_cs + 1
      trans := st.trans + r.2.1
      offset_arr := r.2.2 ++ [⟨st.src_cur, st.tar_cur, r.1⟩]
      src_cur := st.src_cur + 1
      tar_cur := st.tar_cur + 1 }
  else
    let m := min st.src_cur st.tar_cur
    let st' := { st with lcss := st.lcss + st.local_cs, local_cs := 0 }
    match lookAhead src tar m maxOffset with
    | .noHit => { st' with src_cur := m + 1, tar_cur := m + 1 }
    | .srcHit i => { st' with src_cur := m + i, tar_cur := m }
    | .tarHit i => { st' with src_cur := m, tar_cur := m + i }

/-- Lines 170-173: once a cursor has run past its string's end, the local
common substring is flushed and both cursors are realigned to their minimum. -/
def sift4Post (src tar : List Char) (st : S4State) : S4State :=
  if src.length ≤ st.src_cur ∨ tar.length ≤ st.tar_cur then
    { st with
      lcss := st.lcss + st.local_cs
      local_cs := 0
      src_cur := min st.src_cur st.tar_cur
      tar_cur := min st.src_cur st.tar_cur }
  else st

/-- Line 166: the provisional distance estimate used by the early exit. -/
def tempDist (st : S4State) : Int :=
  (max st.src_cur st.tar_cur : Int) - st.lcss + st.trans

/-- One full iteration of the while loop of lines 114-173: either the loop
continues with a new state (inl), or a value is returned (inr), by the early
exit of lines 165-168 or by loop exit followed by lines 175-176. The round
calls of the source act on integers and are identities. -/
def sift4Next (src tar : List Char) (maxOffset maxDistance : Nat) (st : S4State) :
    S4State ⊕ Int :=
  if st.src_cur < src.length ∧ st.tar_cur < tar.length then
    let st' := sift4Step src tar maxOffset st
    if maxDistance ≠ 0 ∧ (maxDistance : Int) ≤ tempDist st' then .inr (tempDist st')
    else .inl (sift4Post src tar st')
  else .inr ((max src.length tar.length : Int) - (st.lcss + st.local_cs) + st.trans)

/-- The while loop, indexed by fuel; none means the fuel was exhausted before
the loop returned (shown below never to happen for sufficient fuel). -/
def sift4Loop (src tar : List Char) (maxOffset maxDistance : Nat) :
    Nat → S4State → Option Int
  | 0, _ => none
  | fuel + 1, st =>
    match sift4Next src tar maxOffset maxDistance st with
    | .inr v => some v
    | .inl st' => sift4Loop src tar maxOffset maxDistance fuel st'

/-- Initial state of lines 107-112. -/
def initState : S4State := ⟨0, 0, 0, 0, 0, []⟩

/-- Fuel budget that provably suffices for the loop to return. -/
def sift4Fuel (src tar : List Char) : Nat := 2 * (src.length + tar.length) + 2

/-- Sift4Extended.dist_abs (lines 98-176): the empty-input branches of lines
98-102, then the scan loop. -/
def sift4ExtDistAbs (maxOffset maxDistance : Nat) (src tar : List Char) : Option Int :=
  if src = [] then some (tar.length : Int)
  else if tar = [] then some (src.length : Int)
  else sift4Loop src tar maxOffset maxDistance (sift4Fuel src tar) initState

/-- Sift4Extended.dist_abs on Lean strings. -/
def sift4ExtDistAbsStr (maxOffset maxDistance : Nat) (src tar : String) : Option Int :=
  sift4ExtDistAbs maxOffset maxDistance src.toList tar.toList

/-- State reached after n iterations of the scan loop from the initial state
(inr once the loop has returned a value). -/
def sift4NextN (src tar : List Char) (maxOffset maxDistance : Nat) : Nat → S4State ⊕ Int
  | 0 => .inl initState
  | n + 1 =>
    match sift4NextN src tar maxOffset maxDistance n with
    | .inl st => sift4Next src tar maxOffset maxDistance st
    | .inr v => .inr v

/-- Invariant of the scan loop: cursors never run more than past the ends, and
the matched totals are bounded by the cursor minimum. -/
def sift4Inv (src tar : List Char) (st : S4State) : Prop :=
  st.src_cur ≤ src.length ∧ st.tar_cur ≤ tar.length ∧
    st.lcss + st.local_cs ≤ min st.src_cur st.tar_cur

/-- Termination measure for the scan loop: the cursor minimum never decreases,
and every iteration either raises it or lands on a matching pair. -/
def sift4Measure (src tar : List Char) (st : S4State) : Nat :=
  2 * (src.length + tar.length - min st.src_cur st.tar_cur) +
    (if st.src_cur < src.length ∧ st.tar_cur < tar.length ∧
        ¬charAt src st.src_cur = charAt tar st.tar_cur then 1 else 0)

/-- Overlap test of line 121: the scan of the offset history breaks at the
first entry satisfying this. -/
def overlapsPair (sc tc : Nat) (e : OffsetEntry) : Prop :=
  sc ≤ e.src_cur ∨ tc ≤ e.tar_cur

/-- Eviction test of line 131: the entry's cursor pair is entirely below the
new matched pair. -/
def supersedesPair (sc tc : Nat) (e : OffsetEntry) : Prop :=
  e.tar_cur < sc ∧ e.src_cur < tc

/-- Gap comparison of lines 122-124: the absolute cursor gap of the new pair
is at least that of the historical entry. -/
def gapGE (sc tc : Nat) (e : OffsetEntry) : Prop :=
  ((e.tar_cur : Int) - e.src_cur).natAbs ≤ ((tc : Int) - sc).natAbs

instance (sc tc : Nat) (e : OffsetEntry) : Decidable (overlapsPair sc tc e) := by
  unfold overlapsPair; infer_instance

instance (sc tc : Nat) (e : OffsetEntry) : Decidable (supersedesPair sc tc e) := by
  unfold supersedesPair; infer_instance

instance (sc tc : Nat) (e : OffsetEntry) : Decidable (gapGE sc tc e) := by
  unfold gapGE; infer_instance

/-- Source string of the concrete run exhibiting incomplete eviction. -/
def c7src : List Char := "adbab".toList

/-- Target string of the concrete run exhibiting incomplete eviction. -/
def c7tar : List Char := "ccbca".toList

/-- State of the scan on c7src/c7tar after five iterations: a matching step at
cursors (3, 4) whose history still holds the entries (0, 4) and (2, 2). -/
def c7state : S4State := ⟨3, 4, 2, 0, 1, [⟨0, 4, true⟩, ⟨2, 2, false⟩]⟩

/-- History entry superseded by the new pair (3, 4) yet retained. -/
def c7entry : OffsetEntry := ⟨2, 2, false⟩

/-- Doolittle.sim (lines 172-179 of _doolittle.py) as a function of the four
contingency cardinalities the engine supplies. Python raises
ZeroDivisionError when the denominator is zero (both int and float division),
modelled by Except.error. -/
def doolittleSim (a b c d : ℚ) : Except Unit ℚ :=
  if (a + b) * (a + c) * (b + d) * (c + d) = 0 then Except.error ()
  else Except.ok ((a * d - b * c) ^ 2 / ((a + b) * (a + c) * (b + d) * (c + d)))

/-- Modelled from the spec: the Token-Set Contingency Engine
(_token_distance.py, not among the provided sources) reports a = b = c = 0
when both inputs are empty (spec section 4.1), so d = n - a - b - c = n. -/
def emptyInputContingency (n : ℚ) : ℚ × ℚ × ℚ × ℚ := (0, 0, 0, n)

/-- Doolittle.sim at a pair of empty input strings, for an engine whose
resolved population cardinality is n (784 under the default alphabet). -/
def doolittleSimEmptyEmpty (n : ℚ) : Except Unit ℚ :=
  doolittleSim (emptyInputContingency n).1 (emptyInputContingency n).2.1
    (emptyInputContingency n).2.2.1 (emptyInputContingency n).2.2.2

/-- Modelled from the spec: the outputs of the Token-Set Contingency Engine
(_token_distance.py, not among the provided sources) that Dennis.sim_score
reads after tokenizing, namely the intersection cardinality, the two multiset
cardinalities, and the unique population cardinality. -/
structure DennisEngineOut where
  a : ℚ
  srcCard : ℚ
  tarCard : ℚ
  popUnique : ℚ

/-- Dennis.sim_score (lines 141-157 of _dennis.py), parameterized by the
engine: the empty-empty guard of lines 141-142 runs before any engine call.
Python raises on the divisions by zero at lines 150 and 157 (Except.error);
the final value num / abacn ** 0.5 is modelled over the reals. -/
noncomputable def dennisSimScore (E : String → String → DennisEngineOut)
    (src tar : String) : Except Unit ℝ :=
  if src = "" ∧ tar = "" then Except.ok 0
  else
    let c := E src tar
    if c.popUnique = 0 then Except.error ()
    else
      let abacn : ℚ := c.srcCard * c.tarCard / c.popUnique
      if c.a - abacn = 0 then Except.ok 0
      else if abacn = 0 then Except.error ()
      else Except.ok (((c.a - abacn : ℚ) : ℝ) / Real.sqrt ((abacn : ℚ) : ℝ))

/-- Modelled from the spec: PearsonPhi.corr (class not among the provided
sources), following the formula recorded in the PearsonIII docstring of
_pearson_iii.py, phi = (ad - bc) / sqrt((a+b)(a+c)(b+c)(b+d)). -/
noncomputable def pearsonPhi (a b c d : ℚ) : ℝ :=
  ((a * d - b * c : ℚ) : ℝ) / Real.sqrt (((a + b) * (a + c) * (b + c) * (b + d) : ℚ) : ℝ)

/-- Radicand of the square root taken at line 148 of _pearson_iii.py:
phi / (|N| + phi). Python computes radicand ** 0.5, which is a complex value
exactly when the radicand is negative. -/
noncomputable def pearsonIIIRadicand (a b c d n : ℚ) : ℝ :=
  pearsonPhi a b c d / ((n : ℚ) + pearsonPhi a b c d)

/-- TullossS.sim (line 142 of _tulloss_s.py) as a function of the three
cardinalities the engine supplies: 1 / sqrt(log2(2 + min(b, c) / (a + 1))). -/
noncomputable def tullossSSim (a b c : ℚ) : ℝ :=
  1 / Real.sqrt (Real.logb 2 (2 + ((min b c : ℚ) : ℝ) / ((a : ℚ) + 1)))

end Abydos

namespace Abydos

/-! Helper lemmas -/

theorem string_length_eq_toList (s : String) : s.length = s.toList.length := rfl

/-! Claim C6 -/

/-- C6: an empty source makes Sift4Extended.dist_abs return the target's
length, and an empty target the source's length, via the guards of lines
98-102, before the scan loop. -/
theorem sift4_empty_input_lengths :
    (∀ (mo md : Nat) (t : String),
        sift4ExtDistAbsStr mo md "" t = some (t.length : Int)) ∧
    (∀ (mo md : Nat) (s : String),
        sift4ExtDistAbsStr mo md s "" = some (s.length : Int)) := by
  constructor
  · intro mo md t
    rfl
  · intro mo md s
    unfold sift4ExtDistAbsStr sift4ExtDistAbs
    by_cases h : s.toList = []
    · rw [if_pos h]
      have h0 : s.length = 0 := by rw [string_length_eq_toList, h]; rfl
      rw [h0]
      rfl
    · rw [if_neg h, if_pos (show String.toList "" = [] from rfl),
        string_length_eq_toList]

/-! Claim C2 -/

/-- C2: evaluation of Sift4Extended.dist_abs with default parameters at the
four docstring pairs: the code yields 1, 2, 5 and 2, while its own docstring
(lines 89-90) and the spec claim 3 for the pair aluminum/Catalan. -/
theorem sift4_doctest_values :
    sift4ExtDistAbsStr 5 0 "cat" "hat" = some 1 ∧
    sift4ExtDistAbsStr 5 0 "Niall" "Neil" = some 2 ∧
    sift4ExtDistAbsStr 5 0 "aluminum" "Catalan" = some 5 ∧
    sift4ExtDistAbsStr 5 0 "ATCG" "TAGC" = some 2 := by
  refine ⟨by decide, by decide, by decide, by decide⟩

/-! Claim C1 -/

/-- C1 counterexample: at a pair of empty inputs (contingency a = b = c = 0,
population 784 under the default alphabet) the Doolittle denominator is zero
and the division aborts the call (Python raises ZeroDivisionError), contrary
to the claim that the call never aborts. -/
theorem doolittle_empty_empty_aborts :
    doolittleSimEmptyEmpty 784 = Except.error () := by
  simp [doolittleSimEmptyEmpty, emptyInputContingency, doolittleSim]

/-- C1 amended: whenever the derived contingency denominator
(a+b)(a+c)(b+d)(c+d) is zero, Doolittle.sim aborts with a division-by-zero
error rather than surfacing a float NaN or infinity. -/
theorem doolittle_zero_denominator_raises (a b c d : ℚ)
    (h : (a + b) * (a + c) * (b + d) * (c + d) = 0) :
    doolittleSim a b c d = Except.error () := by
  simp [doolittleSim, h]

theorem doolittle_zero_denominator_raises_witness :
    ((0 + 0) * (0 + 0) * (0 + 784) * (0 + 784) : ℚ) = 0 ∧
    doolittleSim 0 0 0 784 = Except.error () :=
  ⟨by norm_num, doolittle_zero_denominator_raises 0 0 0 784 (by norm_num)⟩

/-! Claim C9 -/

/-- C9: Dennis.sim_score returns exactly 0.0 when both inputs are empty, for
every possible behavior of the tokenization engine, i.e. before any engine
call (lines 141-142 of _dennis.py). -/
theorem dennis_sim_score_empty_empty (E : String → String → DennisEngineOut) :
    dennisSimScore E "" "" = Except.ok 0 := by
  simp [dennisSimScore]

/-! Claim C7 -/

/-- C7 counterexample: on the run over the strings adbab and ccbca with
max_offset 5, the fifth iteration reaches a matching step at cursors (3, 4)
whose offset history is [(0, 4), (2, 2)]; the scan breaks at the overlapping
first entry (0, 4), and the entry (2, 2) - although its cursor pair is
entirely below the new pair (3 > 2 and 4 > 2) - is retained in the history
after the step, contrary to the claim that every superseded entry is
removed. -/
theorem sift4_eviction_not_exhaustive :
    sift4NextN c7src c7tar 5 0 5 = Sum.inl c7state ∧
    charAt c7src c7state.src_cur = charAt c7tar c7state.tar_cur ∧
    c7entry ∈ (sift4Step c7src c7tar 5 c7state).offset_arr ∧
    supersedesPair c7state.src_cur c7state.tar_cur c7entry := by decide

end Abydos

namespace Abydos

/-- C7 amended: at a matching step at cursors (sc, tc) whose history splits as
pre ++ e :: post with e the first overlapping entry, the new pair is classified
a transposition exactly when its absolute cursor gap is at least that of e;
the trans counter is incremented once, either for the new pair (gap case) or
via the per-entry flag of e, the latter only if the flag was still unset, and
then the flag is set; and exactly the superseded entries among those examined
before e (the non-overlapping prefix) are evicted, while e and all entries
after it are retained. -/
theorem scanOffsetArr_first_overlap (sc tc : Nat) (pre post : List OffsetEntry)
    (e : OffsetEntry) (hpre : ∀ x ∈ pre, ¬overlapsPair sc tc x)
    (he : overlapsPair sc tc e) :
    scanOffsetArr sc tc (pre ++ e :: post) =
      (decide (gapGE sc tc e),
       if gapGE sc tc e then 1 else if e.trans then 0 else 1,
       pre.filter (fun x => !decide (supersedesPair sc tc x)) ++
         (if gapGE sc tc e ∨ e.trans = true then e
          else { e with trans := true }) :: post) := by
  induction pre with
  | nil =>
    rw [List.nil_append, List.filter_nil, List.nil_append]
    simp only [scanOffsetArr]
    rw [if_pos (show sc ≤ e.src_cur ∨ tc ≤ e.tar_cur from he)]
    by_cases hg : gapGE sc tc e
    · rw [if_pos (show ((e.tar_cur : Int) - e.src_cur).natAbs ≤
          ((tc : Int) - sc).natAbs from hg)]
      simp [hg]
    · rw [if_neg (show ¬((e.tar_cur : Int) - e.src_cur).natAbs ≤
          ((tc : Int) - sc).natAbs from hg)]
      by_cases htr : e.trans = true
      · simp [hg, htr]
      · simp [hg, htr]
  | cons x pre ih =>
    have hx : ¬overlapsPair sc tc x := hpre x (by simp)
    have hpre' : ∀ y ∈ pre, ¬overlapsPair sc tc y := fun y hy => hpre y (by simp [hy])
    rw [List.cons_append]
    simp only [scanOffsetArr]
    rw [if_neg (show ¬(sc ≤ x.src_cur ∨ tc ≤ x.tar_cur) from hx)]
    by_cases hsup : supersedesPair sc tc x
    · rw [if_pos (show x.tar_cur < sc ∧ x.src_cur < tc from hsup)]
      rw [ih hpre']
      simp [hsup]
    · rw [if_neg (show ¬(x.tar_cur < sc ∧ x.src_cur < tc) from hsup)]
      rw [ih hpre']
      simp [hsup]

theorem scanOffsetArr_first_overlap_witness :
    (∀ x ∈ [(⟨0, 0, false⟩ : OffsetEntry)], ¬overlapsPair 2 2 x) ∧
    overlapsPair 2 2 ⟨1, 3, false⟩ ∧
    scanOffsetArr 2 2 ([(⟨0, 0, false⟩ : OffsetEntry)] ++ ⟨1, 3, false⟩ :: [⟨9, 9, false⟩]) =
      (decide (gapGE 2 2 ⟨1, 3, false⟩),
       if gapGE 2 2 ⟨1, 3, false⟩ then 1
       else if (OffsetEntry.mk 1 3 false).trans then 0 else 1,
       [(⟨0, 0, false⟩ : OffsetEntry)].filter (fun x => !decide (supersedesPair 2 2 x)) ++
         (if gapGE 2 2 ⟨1, 3, false⟩ ∨ (OffsetEntry.mk 1 3 false).trans = true
          then (⟨1, 3, false⟩ : OffsetEntry)
          else { (⟨1, 3, false⟩ : OffsetEntry) with trans := true }) :: [⟨9, 9, false⟩]) :=
  ⟨by decide, by decide,
    scanOffsetArr_first_overlap 2 2 [⟨0, 0, false⟩] [⟨9, 9, false⟩] ⟨1, 3, false⟩
      (by decide) (by decide)⟩

end Abydos

namespace Abydos

theorem lookAheadFrom_srcHit {src tar : List Char} {m : Nat} :
    ∀ {rem k i : Nat}, lookAheadFrom src tar m k rem = .srcHit i →
      m + i < src.length ∧ charAt src (m + i) = charAt tar m := by
  intro rem
  induction rem with
  | zero => intro k i h; simp [lookAheadFrom] at h
  | succ rem ih =>
    intro k i h
    unfold lookAheadFrom at h
    split at h
    · exact absurd h (by simp)
    · split at h
      · next hhit =>
          cases h
          exact hhit
      · split at h
        · exact absurd h (by simp)
        · exact ih h

theorem lookAheadFrom_tarHit {src tar : List Char} {m : Nat} :
    ∀ {rem k i : Nat}, lookAheadFrom src tar m k rem = .tarHit i →
      m + i < tar.length ∧ charAt src m = charAt tar (m + i) := by
  intro rem
  induction rem with
  | zero => intro k i h; simp [lookAheadFrom] at h
  | succ rem ih =>
    intro k i h
    unfold lookAheadFrom at h
    split at h
    · exact absurd h (by simp)
    · split at h
      · exact absurd h (by simp)
      · split at h
        · next hhit =>
            cases h
            exact hhit
        · exact ih h

theorem sift4Post_min (src tar : List Char) (st : S4State) :
    min (sift4Post src tar st).src_cur (sift4Post src tar st).tar_cur =
      min st.src_cur st.tar_cur := by
  unfold sift4Post
  split <;> simp

theorem sift4Post_sum (src tar : List Char) (st : S4State) :
    (sift4Post src tar st).lcss + (sift4Post src tar st).local_cs =
      st.lcss + st.local_cs := by
  unfold sift4Post
  split <;> simp

theorem sift4Post_src_le (src tar : List Char) (st : S4State) :
    (sift4Post src tar st).src_cur ≤ st.src_cur := by
  unfold sift4Post
  split <;> simp [min_le_left]

theorem sift4Post_tar_le (src tar : List Char) (st : S4State) :
    (sift4Post src tar st).tar_cur ≤ st.tar_cur := by
  unfold sift4Post
  split <;> simp [min_le_right]

theorem sift4Inv_post {src tar : List Char} {st : S4State}
    (h : sift4Inv src tar st) : sift4Inv src tar (sift4Post src tar st) := by
  obtain ⟨h1, h2, h3⟩ := h
  refine ⟨le_trans (sift4Post_src_le src tar st) h1,
    le_trans (sift4Post_tar_le src tar st) h2, ?_⟩
  rw [sift4Post_sum, sift4Post_min]
  exact h3

theorem tempDist_nonneg {src tar : List Char} {st : S4State}
    (h : sift4Inv src tar st) : 0 ≤ tempDist st := by
  obtain ⟨h1, h2, h3⟩ := h
  have hl : st.lcss ≤ max st.src_cur st.tar_cur := by
    calc st.lcss ≤ st.lcss + st.local_cs := Nat.le_add_right _ _
    _ ≤ min st.src_cur st.tar_cur := h3
    _ ≤ st.src_cur := min_le_left _ _
    _ ≤ max st.src_cur st.tar_cur := le_max_left _ _
  unfold tempDist
  omega

theorem sift4Measure_le (src tar : List Char) (st : S4State) :
    sift4Measure src tar st ≤
      2 * (src.length + tar.length - min st.src_cur st.tar_cur) + 1 := by
  unfold sift4Measure
  split <;> omega

theorem sift4Measure_of_match {src tar : List Char} {st : S4State}
    (hc : charAt src st.src_cur = charAt tar st.tar_cur) :
    sift4Measure src tar st =
      2 * (src.length + tar.length - min st.src_cur st.tar_cur) := by
  unfold sift4Measure
  rw [if_neg]
  · omega
  · intro hcontra
    exact hcontra.2.2 hc

theorem sift4Measure_of_mismatch {src tar : List Char} {st : S4State}
    (hs : st.src_cur < src.length) (ht : st.tar_cur < tar.length)
    (hc : ¬charAt src st.src_cur = charAt tar st.tar_cur) :
    sift4Measure src tar st =
      2 * (src.length + tar.length - min st.src_cur st.tar_cur) + 1 := by
  unfold sift4Measure
  rw [if_pos ⟨hs, ht, hc⟩]

end Abydos

namespace Abydos

theorem sift4_step_decrease {src tar : List Char} {mo : Nat} {st : S4State}
    (hinv : sift4Inv src tar st) (hs : st.src_cur < src.length)
    (ht : st.tar_cur < tar.length) :
    sift4Inv src tar (sift4Step src tar mo st) ∧
    sift4Inv src tar (sift4Post src tar (sift4Step src tar mo st)) ∧
    sift4Measure src tar (sift4Post src tar (sift4Step src tar mo st)) <
      sift4Measure src tar st := by
  obtain ⟨hb1, hb2, hb3⟩ := hinv
  have hm1 : min st.src_cur st.tar_cur < src.length :=
    lt_of_le_of_lt (min_le_left _ _) hs
  have hm2 : min st.src_cur st.tar_cur < tar.length :=
    lt_of_le_of_lt (min_le_right _ _) ht
  by_cases hc : charAt src st.src_cur = charAt tar st.tar_cur
  · have hstep : sift4Step src tar mo st =
        { st with
          local_cs := st.local_cs + 1
          trans := st.trans + (scanOffsetArr st.src_cur st.tar_cur st.offset_arr).2.1
          offset_arr := (scanOffsetArr st.src_cur st.tar_cur st.offset_arr).2.2 ++
            [⟨st.src_cur, st.tar_cur, (scanOffsetArr st.src_cur st.tar_cur st.offset_arr).1⟩]
          src_cur := st.src_cur + 1
          tar_cur := st.tar_cur + 1 } := by
      simp [sift4Step, hc]
    have hmin' : min (sift4Step src tar mo st).src_cur (sift4Step src tar mo st).tar_cur
        = min st.src_cur st.tar_cur + 1 := by
      rw [hstep]
      exact Nat.succ_min_succ _ _
    have hinv' : sift4Inv src tar (sift4Step src tar mo st) := by
      refine ⟨?_, ?_, ?_⟩
      · rw [hstep]; exact Nat.succ_le_of_lt hs
      · rw [hstep]; exact Nat.succ_le_of_lt ht
      · rw [hmin', hstep]
        dsimp only
        omega
    refine ⟨hinv', sift4Inv_post hinv', ?_⟩
    have h1 := sift4Measure_le src tar (sift4Post src tar (sift4Step src tar mo st))
    rw [sift4Post_min, hmin'] at h1
    rw [sift4Measure_of_match hc]
    omega
  · have hla0 : lookAhead src tar (min st.src_cur st.tar_cur) mo =
        lookAheadFrom src tar (min st.src_cur st.tar_cur) 0 mo := rfl
    rcases hla : lookAhead src tar (min st.src_cur st.tar_cur) mo with _ | i | i
    · have hstep : sift4Step src tar mo st =
          { st with
            lcss := st.lcss + st.local_cs
            local_cs := 0
            src_cur := min st.src_cur st.tar_cur + 1
            tar_cur := min st.src_cur st.tar_cur + 1 } := by
        simp [sift4Step, hc, hla]
      have hmin' : min (sift4Step src tar mo st).src_cur (sift4Step src tar mo st).tar_cur
          = min st.src_cur st.tar_cur + 1 := by
        rw [hstep]
        exact min_self _
      have hinv' : sift4Inv src tar (sift4Step src tar mo st) := by
        refine ⟨?_, ?_, ?_⟩
        · rw [hstep]; exact Nat.succ_le_of_lt hm1
        · rw [hstep]; exact Nat.succ_le_of_lt hm2
        · rw [hmin', hstep]
          dsimp only
          omega
      refine ⟨hinv', sift4Inv_post hinv', ?_⟩
      have h1 := sift4Measure_le src tar (sift4Post src tar (sift4Step src tar mo st))
      rw [sift4Post_min, hmin'] at h1
      rw [sift4Measure_of_mismatch hs ht hc]
      omega
    · obtain ⟨hfi, hfc⟩ := lookAheadFrom_srcHit (hla0 ▸ hla)
      have hstep : sift4Step src tar mo st =
          { st with
            lcss := st.lcss + st.local_cs
            local_cs := 0
            src_cur := min st.src_cur st.tar_cur + i
            tar_cur := min st.src_cur st.tar_cur } := by
        simp [sift4Step, hc, hla]
      have hmin' : min (sift4Step src tar mo st).src_cur (sift4Step src tar mo st).tar_cur
          = min st.src_cur st.tar_cur := by
        rw [hstep]
        exact min_eq_right (Nat.le_add_right _ _)
      have hinv' : sift4Inv src tar (sift4Step src tar mo st) := by
        refine ⟨?_, ?_, ?_⟩
        · rw [hstep]; exact le_of_lt hfi
        · rw [hstep]; exact le_of_lt hm2
        · rw [hmin', hstep]
          dsimp only
          omega
      have hpost : sift4Post src tar (sift4Step src tar mo st) = sift4Step src tar mo st := by
        unfold sift4Post
        rw [if_neg]
        rw [hstep]
        dsimp only
        omega
      refine ⟨hinv', by rw [hpost]; exact hinv', ?_⟩
      rw [hpost]
      have hmeq : sift4Measure src tar (sift4Step src tar mo st) =
          2 * (src.length + tar.length - min st.src_cur st.tar_cur) := by
        unfold sift4Measure
        rw [hmin', if_neg]
        · omega
        · intro hcontra
          exact hcontra.2.2 (hstep ▸ hfc)
      rw [hmeq, sift4Measure_of_mismatch hs ht hc]
      omega
    · obtain ⟨hfi, hfc⟩ := lookAheadFrom_tarHit (hla0 ▸ hla)
      have hstep : sift4Step src tar mo st =
          { st with
            lcss := st.lcss + st.local_cs
            local_cs := 0
            src_cur := min st.src_cur st.tar_cur
            tar_cur := min st.src_cur st.tar_cur + i } := by
        simp [sift4Step, hc, hla]
      have hmin' : min (sift4Step src tar mo st).src_cur (sift4Step src tar mo st).tar_cur
          = min st.src_cur st.tar_cur := by
        rw [hstep]
        exact min_eq_left (Nat.le_add_right _ _)
      have hinv' : sift4Inv src tar (sift4Step src tar mo st) := by
        refine ⟨?_, ?_, ?_⟩
        · rw [hstep]; exact le_of_lt hm1
        · rw [hstep]; exact le_of_lt hfi
        · rw [hmin', hstep]
          dsimp only
          omega
      have hpost : sift4Post src tar (sift4Step src tar mo st) = sift4Step src tar mo st := by
        unfold sift4Post
        rw [if_neg]
        rw [hstep]
        dsimp only
        omega
      refine ⟨hinv', by rw [hpost]; exact hinv', ?_⟩
      rw [hpost]
      have hmeq : sift4Measure src tar (sift4Step src tar mo st) =
          2 * (src.length + tar.length - min st.src_cur st.tar_cur) := by
        unfold sift4Measure
        rw [hmin', if_neg]
        · omega
        · intro hcontra
          exact hcontra.2.2 (hstep ▸ hfc)
      rw [hmeq, sift4Measure_of_mismatch hs ht hc]
      omega

end Abydos

namespace Abydos

theorem sift4Loop_total {src tar : List Char} (mo md : Nat) :
    ∀ fuel st, sift4Inv src tar st → sift4Measure src tar st < fuel →
      ∃ v, sift4Loop src tar mo md fuel st = some v ∧ 0 ≤ v := by
  intro fuel
  induction fuel with
  | zero => intro st _ h; exact absurd h (Nat.not_lt_zero _)
  | succ fuel ih =>
    intro st hinv hm
    by_cases hcond : st.src_cur < src.length ∧ st.tar_cur < tar.length
    · obtain ⟨hinv', hpinv, hdec⟩ := sift4_step_decrease hinv hcond.1 hcond.2
      by_cases hexit : md ≠ 0 ∧ (md : Int) ≤ tempDist (sift4Step src tar mo st)
      · refine ⟨tempDist (sift4Step src tar mo st), ?_, tempDist_nonneg hinv'⟩
        simp [sift4Loop, sift4Next, hcond, hexit]
      · obtain ⟨v, hv, hv0⟩ :=
          ih (sift4Post src tar (sift4Step src tar mo st)) hpinv (by omega)
        refine ⟨v, ?_, hv0⟩
        simp only [sift4Loop, sift4Next, if_pos hcond, if_neg hexit]
        exact hv
    · refine ⟨(max src.length tar.length : Int) - (st.lcss + st.local_cs) + st.trans,
        ?_, ?_⟩
      · simp [sift4Loop, sift4Next, hcond]
      · obtain ⟨h1, h2, h3⟩ := hinv
        have hle : st.lcss + st.local_cs ≤ src.length :=
          le_trans h3 (le_trans (min_le_left _ _) h1)
        have hmx : src.length ≤ max src.length tar.length := le_max_left _ _
        omega

/-- C3: for every pair of inputs, every max_offset and every max_distance,
Sift4Extended.dist_abs terminates (the scan loop returns within the stated
fuel budget, because the cursor minimum never decreases and rises at least
every other iteration) and its value is a non-negative integer. -/
theorem sift4_terminates_nonneg (mo md : Nat) (src tar : List Char) :
    ∃ v, sift4ExtDistAbs mo md src tar = some v ∧ 0 ≤ v := by
  unfold sift4ExtDistAbs
  by_cases h1 : src = []
  · exact ⟨tar.length, by rw [if_pos h1], Int.natCast_nonneg _⟩
  · by_cases h2 : tar = []
    · exact ⟨src.length, by rw [if_neg h1, if_pos h2], Int.natCast_nonneg _⟩
    · rw [if_neg h1, if_neg h2]
      apply sift4Loop_total mo md (sift4Fuel src tar) initState
      · exact ⟨Nat.zero_le _, Nat.zero_le _, le_refl _⟩
      · have := sift4Measure_le src tar initState
        unfold sift4Fuel
        have h0 : min initState.src_cur initState.tar_cur = 0 := rfl
        rw [h0] at this
        omega

end Abydos

namespace Abydos

theorem scanOffsetArr_single_evict {sc tc a b : Nat} {f : Bool}
    (h1 : ¬(sc ≤ a ∨ tc ≤ b)) (h2 : b < sc ∧ a < tc) :
    scanOffsetArr sc tc [⟨a, b, f⟩] = (false, 0, []) := by
  simp only [scanOffsetArr]
  rw [if_neg h1, if_pos h2]

theorem sift4Loop_self_aux {s : List Char} (mo : Nat) :
    ∀ fuel k arr, scanOffsetArr k k arr = (false, 0, []) → k < s.length →
      s.length + 1 ≤ fuel + k →
      sift4Loop s s mo 0 fuel ⟨k, k, 0, k, 0, arr⟩ = some 0 := by
  intro fuel
  induction fuel with
  | zero => intro k arr _ h1 h2; omega
  | succ fuel ih =>
    intro k arr hscan hk hfuel
    have hstep : sift4Step s s mo ⟨k, k, 0, k, 0, arr⟩ =
        ⟨k + 1, k + 1, 0, k + 1, 0, [⟨k, k, false⟩]⟩ := by
      unfold sift4Step
      dsimp only
      rw [if_pos rfl, hscan]
      rfl
    have hnext : sift4Next s s mo 0 ⟨k, k, 0, k, 0, arr⟩ =
        .inl (sift4Post s s ⟨k + 1, k + 1, 0, k + 1, 0, [⟨k, k, false⟩]⟩) := by
      unfold sift4Next
      rw [if_pos (show (⟨k, k, 0, k, 0, arr⟩ : S4State).src_cur < s.length ∧
        (⟨k, k, 0, k, 0, arr⟩ : S4State).tar_cur < s.length from ⟨hk, hk⟩)]
      rw [hstep, if_neg (by simp)]
    by_cases hlt : k + 1 < s.length
    · have hpost : sift4Post s s ⟨k + 1, k + 1, 0, k + 1, 0, [⟨k, k, false⟩]⟩ =
          ⟨k + 1, k + 1, 0, k + 1, 0, [⟨k, k, false⟩]⟩ := by
        unfold sift4Post
        rw [if_neg (show ¬(s.length ≤ (⟨k + 1, k + 1, 0, k + 1, 0,
          [⟨k, k, false⟩]⟩ : S4State).src_cur ∨ s.length ≤ (⟨k + 1, k + 1, 0, k + 1, 0,
          [⟨k, k, false⟩]⟩ : S4State).tar_cur) by dsimp only; omega)]
      simp only [sift4Loop]
      rw [hnext, hpost]
      exact ih (k + 1) [⟨k, k, false⟩]
        (scanOffsetArr_single_evict (by omega) (by omega)) hlt (by omega)
    · have hn : k + 1 = s.length := by omega
      have hpost : sift4Post s s ⟨k + 1, k + 1, 0, k + 1, 0, [⟨k, k, false⟩]⟩ =
          ⟨k + 1, k + 1, k + 1, 0, 0, [⟨k, k, false⟩]⟩ := by
        unfold sift4Post
        rw [if_pos (show s.length ≤ (⟨k + 1, k + 1, 0, k + 1, 0,
          [⟨k, k, false⟩]⟩ : S4State).src_cur ∨ s.length ≤ (⟨k + 1, k + 1, 0, k + 1, 0,
          [⟨k, k, false⟩]⟩ : S4State).tar_cur from Or.inl (by dsimp only; omega))]
        dsimp only
        rw [Nat.min_self]
        simp
      obtain ⟨f, rfl⟩ : ∃ f, fuel = f + 1 := ⟨fuel - 1, by omega⟩
      have hlast : sift4Next s s mo 0 ⟨k + 1, k + 1, k + 1, 0, 0, [⟨k, k, false⟩]⟩ =
          .inr 0 := by
        unfold sift4Next
        rw [if_neg (show ¬((⟨k + 1, k + 1, k + 1, 0, 0, [⟨k, k, false⟩]⟩ :
          S4State).src_cur < s.length ∧ (⟨k + 1, k + 1, k + 1, 0, 0, [⟨k, k, false⟩]⟩ :
          S4State).tar_cur < s.length) by dsimp only; omega)]
        dsimp only
        congr 1
        rw [max_self]
        omega
      simp only [sift4Loop]
      rw [hnext, hpost]
      dsimp only
      rw [hlast]

/-- C5: Sift4Extended.dist_abs of any string with itself is 0, for every
max_offset, with unbounded max_distance: every scan step is a matching step,
no transpositions accumulate (each step evicts the single remaining history
entry), and the flushed common-substring total equals the string length. -/
theorem sift4_self_distance_zero (mo : Nat) (s : String) :
    sift4ExtDistAbsStr mo 0 s s = some 0 := by
  unfold sift4ExtDistAbsStr sift4ExtDistAbs
  by_cases h : s.toList = []
  · rw [if_pos h, h]
    rfl
  · rw [if_neg h, if_neg h]
    have h0 : 0 < s.toList.length := List.length_pos.mpr h
    exact sift4Loop_self_aux mo (sift4Fuel s.toList s.toList) 0 [] rfl h0
      (by unfold sift4Fuel; omega)

end Abydos

namespace Abydos

theorem sift4Loop_bounded_cases (src tar : List Char) (mo K : Nat) :
    ∀ fuel st,
      sift4Loop src tar mo K fuel st = sift4Loop src tar mo 0 fuel st ∨
      ∃ v, sift4Loop src tar mo K fuel st = some v ∧ (K : Int) ≤ v := by
  intro fuel
  induction fuel with
  | zero => intro st; left; rfl
  | succ fuel ih =>
    intro st
    by_cases hcond : st.src_cur < src.length ∧ st.tar_cur < tar.length
    · by_cases hexit : K ≠ 0 ∧ (K : Int) ≤ tempDist (sift4Step src tar mo st)
      · right
        refine ⟨tempDist (sift4Step src tar mo st), ?_, hexit.2⟩
        simp only [sift4Loop, sift4Next, if_pos hcond, if_pos hexit]
      · have hK : sift4Loop src tar mo K (fuel + 1) st =
            sift4Loop src tar mo K fuel (sift4Post src tar (sift4Step src tar mo st)) := by
          simp only [sift4Loop, sift4Next, if_pos hcond, if_neg hexit]
        have h00 : ¬((0 : Nat) ≠ 0 ∧ ((0 : Nat) : Int) ≤ tempDist (sift4Step src tar mo st)) := by
          simp
        have h0 : sift4Loop src tar mo 0 (fuel + 1) st =
            sift4Loop src tar mo 0 fuel (sift4Post src tar (sift4Step src tar mo st)) := by
          simp only [sift4Loop, sift4Next, if_pos hcond, if_neg h00]
        rcases ih (sift4Post src tar (sift4Step src tar mo st)) with h | ⟨v, hv, hvK⟩
        · left
          rw [hK, h0, h]
        · right
          exact ⟨v, by rw [hK]; exact hv, hvK⟩
    · left
      simp only [sift4Loop, sift4Next, if_neg hcond]

/-- C4: with a configured bound K, Sift4Extended.dist_abs returns either
exactly the value of the unbounded scan (the stepping is identical and the
early exit of lines 165-168 never fires), or, when the early exit does fire
because the provisional estimate max(src_cur, tar_cur) - lcss + trans has
reached K, a value at least K. -/
theorem sift4_bounded_early_exit (mo K : Nat) (src tar : List Char)
    (_hK : 0 < K) :
    sift4ExtDistAbs mo K src tar = sift4ExtDistAbs mo 0 src tar ∨
    ∃ v, sift4ExtDistAbs mo K src tar = some v ∧ (K : Int) ≤ v := by
  unfold sift4ExtDistAbs
  by_cases h1 : src = []
  · left
    simp only [if_pos h1]
  · by_cases h2 : tar = []
    · left
      simp only [if_neg h1, if_pos h2]
    · simp only [if_neg h1, if_neg h2]
      exact sift4Loop_bounded_cases src tar mo K (sift4Fuel src tar) initState

theorem sift4_bounded_early_exit_witness :
    0 < 1 ∧
    (sift4ExtDistAbs 5 1 "cat".toList "hat".toList =
        sift4ExtDistAbs 5 0 "cat".toList "hat".toList ∨
      ∃ v, sift4ExtDistAbs 5 1 "cat".toList "hat".toList = some v ∧ (1 : Int) ≤ v) :=
  ⟨Nat.one_pos, sift4_bounded_early_exit 5 1 "cat".toList "hat".toList Nat.one_pos⟩

end Abydos

namespace Abydos

/-! Claim C8 -/

/-- C8 counterexample: for the disjoint-token-set contingency a = 0, b = c = 3,
d = 778, n = 784 (two length-4 inputs with no shared bigrams under the default
alphabet), the PearsonPhi numerator ad - bc = -9 is negative, so the radicand
phi / (|N| + phi) computed inside PearsonIII.corr is negative, and radicand **
0.5 is a complex value in Python, contrary to the claim that the radicand is
always non-negative. -/
theorem pearsonIII_radicand_negative_example :
    pearsonIIIRadicand 0 3 3 778 784 < 0 := by
  have hphi : pearsonPhi 0 3 3 778 = (-9 : ℝ) / Real.sqrt 42174 := by
    unfold pearsonPhi
    norm_num
  have hs1 : (1 : ℝ) ≤ Real.sqrt 42174 := Real.one_le_sqrt.mpr (by norm_num)
  have hs0 : (0 : ℝ) < Real.sqrt 42174 := lt_of_lt_of_le one_pos hs1
  have h9 : (9 : ℝ) / Real.sqrt 42174 ≤ 9 := div_le_self (by norm_num) hs1
  have hneg : pearsonPhi 0 3 3 778 < 0 := by
    rw [hphi]
    exact div_neg_of_neg_of_pos (by norm_num) hs0
  have hge : (-9 : ℝ) ≤ pearsonPhi 0 3 3 778 := by
    rw [hphi, neg_div]
    linarith
  unfold pearsonIIIRadicand
  apply div_neg_of_neg_of_pos hneg
  have h784 : ((784 : ℚ) : ℝ) = 784 := by norm_num
  rw [h784]
  linarith

/-- C8 amended: the radicand phi / (|N| + phi) of PearsonIII.corr is
non-negative exactly when phi is, i.e. when ad ≥ bc; when ad < bc (as for
disjoint non-empty token sets) and the population bounds hold, the radicand is
negative and the Python result is complex rather than real. -/
theorem pearsonIII_radicand_sign (a b c d n : ℚ) :
    (b * c ≤ a * d → 0 ≤ n → 0 ≤ pearsonIIIRadicand a b c d n) ∧
    (a * d < b * c → (1 : ℚ) ≤ (a + b) * (a + c) * (b + c) * (b + d) →
      b * c - a * d < n → pearsonIIIRadicand a b c d n < 0) := by
  constructor
  · intro h1 h2
    have hnum : (0 : ℝ) ≤ ((a * d - b * c : ℚ) : ℝ) := by
      exact_mod_cast sub_nonneg.mpr h1
    have hphi : 0 ≤ pearsonPhi a b c d := div_nonneg hnum (Real.sqrt_nonneg _)
    have hn : (0 : ℝ) ≤ (n : ℝ) := by exact_mod_cast h2
    exact div_nonneg hphi (by linarith)
  · intro h1 h2 h3
    have hs1 : (1 : ℝ) ≤ Real.sqrt (((a + b) * (a + c) * (b + c) * (b + d) : ℚ) : ℝ) :=
      Real.one_le_sqrt.mpr (by exact_mod_cast h2)
    have hs0 : (0 : ℝ) < Real.sqrt (((a + b) * (a + c) * (b + c) * (b + d) : ℚ) : ℝ) :=
      lt_of_lt_of_le one_pos hs1
    have hnum : ((a * d - b * c : ℚ) : ℝ) < 0 := by
      exact_mod_cast sub_neg.mpr h1
    have hphi_neg : pearsonPhi a b c d < 0 := div_neg_of_neg_of_pos hnum hs0
    have hphi_ge : ((a * d - b * c : ℚ) : ℝ) ≤ pearsonPhi a b c d := by
      unfold pearsonPhi
      rw [le_div_iff₀ hs0]
      nlinarith [mul_nonneg (by linarith : (0 : ℝ) ≤ -((a * d - b * c : ℚ) : ℝ))
        (by linarith : (0 : ℝ) ≤
          Real.sqrt (((a + b) * (a + c) * (b + c) * (b + d) : ℚ) : ℝ) - 1)]
    have hpos : (0 : ℝ) < (n : ℝ) + pearsonPhi a b c d := by
      have h3' : ((b * c - a * d : ℚ) : ℝ) < (n : ℝ) := by exact_mod_cast h3
      have hcast : ((b * c - a * d : ℚ) : ℝ) = -((a * d - b * c : ℚ) : ℝ) := by
        push_cast
        ring
      linarith
    unfold pearsonIIIRadicand
    exact div_neg_of_neg_of_pos hphi_neg hpos

theorem pearsonIII_radicand_sign_witness :
    ((3 * 3 : ℚ) ≤ 9 * 9 ∧ (0 : ℚ) ≤ 784 ∧ 0 ≤ pearsonIIIRadicand 9 3 3 9 784) ∧
    ((0 * 778 : ℚ) < 3 * 3 ∧ (1 : ℚ) ≤ (0 + 3) * (0 + 3) * (3 + 3) * (3 + 778) ∧
      (3 * 3 - 0 * 778 : ℚ) < 784 ∧ pearsonIIIRadicand 0 3 3 778 784 < 0) :=
  ⟨⟨by norm_num, by norm_num,
      (pearsonIII_radicand_sign 9 3 3 9 784).1 (by norm_num) (by norm_num)⟩,
    ⟨by norm_num, by norm_num, by norm_num,
      (pearsonIII_radicand_sign 0 3 3 778 784).2 (by norm_num) (by norm_num)
        (by norm_num)⟩⟩

/-! Claim C10 -/

/-- C10: for any non-negative cardinalities a, b, c supplied by the engine,
TullossS.sim is total and lies in (0, 1]: the divisor a + 1 is nonzero, the
base-2 logarithm of 2 + min(b, c)/(a + 1) is at least 1, and the reciprocal
square root is positive and at most 1. -/
theorem tullossS_sim_in_unit_interval (a b c : ℚ) (ha : 0 ≤ a) (hb : 0 ≤ b)
    (hc : 0 ≤ c) :
    ((a : ℝ) + 1 ≠ 0) ∧
    1 ≤ Real.logb 2 (2 + ((min b c : ℚ) : ℝ) / ((a : ℝ) + 1)) ∧
    0 < tullossSSim a b c ∧ tullossSSim a b c ≤ 1 := by
  have ha0 : (0 : ℝ) ≤ (a : ℝ) := by exact_mod_cast ha
  have ha1 : (0 : ℝ) < (a : ℝ) + 1 := by linarith
  have hmin : (0 : ℝ) ≤ ((min b c : ℚ) : ℝ) := by
    exact_mod_cast le_min hb hc
  have hx : (0 : ℝ) ≤ ((min b c : ℚ) : ℝ) / ((a : ℝ) + 1) := div_nonneg hmin ha1.le
  have hlog : 1 ≤ Real.logb 2 (2 + ((min b c : ℚ) : ℝ) / ((a : ℝ) + 1)) := by
    have h2 := Real.logb_self_eq_one (b := 2) (by norm_num)
    calc (1 : ℝ) = Real.logb 2 2 := h2.symm
      _ ≤ Real.logb 2 (2 + ((min b c : ℚ) : ℝ) / ((a : ℝ) + 1)) :=
        Real.logb_le_logb_of_le (by norm_num) (by norm_num) (by linarith)
  have hsq : 1 ≤ Real.sqrt (Real.logb 2 (2 + ((min b c : ℚ) : ℝ) / ((a : ℝ) + 1))) :=
    Real.one_le_sqrt.mpr hlog
  have hsq0 : 0 < Real.sqrt (Real.logb 2 (2 + ((min b c : ℚ) : ℝ) / ((a : ℝ) + 1))) :=
    lt_of_lt_of_le one_pos hsq
  refine ⟨ne_of_gt ha1, hlog, ?_, ?_⟩
  · unfold tullossSSim
    exact one_div_pos.mpr hsq0
  · unfold tullossSSim
    rw [div_le_one hsq0]
    exact hsq

theorem tullossS_sim_in_unit_interval_witness :
    (0 : ℚ) ≤ 2 ∧ (0 : ℚ) ≤ 1 ∧ (0 : ℚ) ≤ 3 ∧
    (((2 : ℚ) : ℝ) + 1 ≠ 0 ∧
      1 ≤ Real.logb 2 (2 + ((min (1 : ℚ) 3 : ℚ) : ℝ) / (((2 : ℚ) : ℝ) + 1)) ∧
      0 < tullossSSim 2 1 3 ∧ tullossSSim 2 1 3 ≤ 1) :=
  ⟨by norm_num, by norm_num, by norm_num,
    tullossS_sim_in_unit_interval 2 1 3 (by norm_num) (by norm_num) (by norm_num)⟩

end Abydos
